import Mathlib

/-
Verification of the module-rewriting engine in
src/src/node/serverPluginModuleRewrite.ts (a development-server plugin that
rewrites ES module import specifiers, maintains an importer/importee graph,
and caches rewritten response bodies).

External collaborators (the es-module-lexer parse function, the resolver,
the HMR transformer from serverPluginHmr, the Node path module, the regex
engine of String.replace) are modelled as parameters; everything that is
code of serverPluginModuleRewrite.ts itself is translated directly.
-/

set_option maxHeartbeats 1000000

namespace ViteRewrite

/-- JS word character, the regex class backslash-w used in
serverPluginModuleRewrite.ts: ASCII letters, digits and underscore. -/
def isWordChar (c : Char) : Bool :=
  c.isAlphanum || c = '_'

/-- Scan for the unanchored regex pattern dot-followed-by-word-character
(the extension check of rewriteImports, line 167): a dot immediately
followed by a word character, anywhere in the character list. -/
def hasDotWordChars : List Char → Bool
  | '.' :: c :: rest => isWordChar c || hasDotWordChars (c :: rest)
  | _ :: rest => hasDotWordChars rest
  | [] => false

/-- The test of the regex from line 167 of rewriteImports on a pathname. -/
def hasDotWord (s : String) : Bool :=
  hasDotWordChars s.toList

/-- Split at the first question mark, per the queryRE replace and match of
rewriteImports (lines 162-165), for specifiers free of line terminators. -/
def splitQueryChars : List Char → List Char × List Char
  | [] => ([], [])
  | c :: rest =>
    if c = '?' then ([], c :: rest)
    else
      let pr := splitQueryChars rest
      (c :: pr.1, pr.2)

/-- Pathname/query split of a specifier: pathname before the first
question mark, query from the question mark to the end. -/
def splitQuery (s : String) : String × String :=
  let pr := splitQueryChars s.toList
  (String.mk pr.1, String.mk pr.2)

/-- JS truthiness of the optional timestamp argument of rewriteImports:
absent and the empty string are both falsy. -/
def tsTruthy : Option String → Bool
  | none => false
  | some t => decide (t ≠ "")

/-- The relative/absolute branch of rewriteImports (lines 161-176): split
off the query string, append .js when the pathname contains no
dot-followed-by-word-character, and, for a truthy timestamp, append one
cache-busting t= parameter introduced by a question mark when the query
was empty and by an ampersand otherwise. -/
def rewriteRelative (id : String) (timestamp : Option String) : String :=
  let pq := splitQuery id
  let pathname := if hasDotWord pq.1 then pq.1 else pq.1 ++ ".js"
  let query :=
    if tsTruthy timestamp then
      pq.2 ++ (if pq.2 = "" then "?" else "&") ++ "t=" ++ timestamp.getD ""
    else pq.2
  pathname ++ query

/-- The bare-specifier test of rewriteImports (line 149), the regex
caret-not-slash-not-dot: the first character exists and is neither a slash
nor a dot. -/
def isBareSpecifier (id : String) : Bool :=
  match id.toList with
  | [] => false
  | c :: _ => decide (c ≠ '/') && decide (c ≠ '.')

/-- The resolver collaborator of the plugin (src/src/node/resolver is out
of scope): idToRequest resolves a bare id to a request path or nothing,
fileToRequest maps an absolute file path to its public request path. -/
structure InternalResolver where
  idToRequest : String → Option String
  fileToRequest : String → String

/-- The bare branch resolution (line 150): the resolver output, with the
virtual-namespace fallback when the resolver yields nothing; the JS
or-operator also falls through on an empty-string result. -/
def resolveBare (resolver : InternalResolver) (id : String) : String :=
  match resolver.idToRequest id with
  | none => "/@modules/" ++ id
  | some r => if r = "" then "/@modules/" ++ id else r

/-- The importer test of line 153, regex dot-vue-end or dot-vue-query: the
dot is unescaped in the source regex, hence matches any character, so the
first alternative is any character followed by the letters vue at the end
of the string, and the second is any character followed by the literal
text vue?type= anywhere. -/
def testVueRE (importer : String) : Bool :=
  let cs := importer.toList
  (decide (4 ≤ cs.length) && List.isSuffixOf ['v', 'u', 'e'] cs)
  || (List.range cs.length).any fun i =>
       decide (1 ≤ i) &&
         decide ((cs.drop i).take 9 = ['v', 'u', 'e', '?', 't', 'y', 'p', 'e', '='])

/-- The final slash-separated segment of a path. -/
def lastSegmentChars (cs : List Char) : List Char :=
  cs.foldl (fun acc c => if c = '/' then [] else acc ++ [c]) []

/-- Formalisation of the claim words of C3, not of the code: a path has a
file extension when its final slash-separated segment ends in a nonempty
run of word characters preceded by a dot that is not the first character
of that segment. -/
def specHasFileExtension (p : String) : Bool :=
  let lastSeg := lastSegmentChars p.toList
  let r := lastSeg.reverse
  let w := r.takeWhile isWordChar
  match r.drop w.length with
  | '.' :: before => decide (w ≠ []) && decide (before ≠ [])
  | _ => false

/-- Whether a string ends with the three characters of the default script
extension. -/
def hasJsSuffix (s : String) : Bool :=
  match s.toList.reverse with
  | 's' :: 'j' :: '.' :: _ => true
  | _ => false

/-- Key-value view of the plugin's rewrite cache (an LRUCache with max
1024, line 20): most recently inserted first, bounded length. -/
abbrev Cache := List (String × String)

/-- The max option of the LRUCache at line 20. -/
def rewriteCacheMax : Nat := 1024

/-- Deletion of a key, the del call of the cache. -/
def cacheDel (c : Cache) (k : String) : Cache :=
  c.filter fun p => decide (p.1 ≠ k)

/-- Insertion, the set call of the cache: the fresh entry becomes most
recent and the least recent entries beyond the capacity are evicted. -/
def cacheSet (c : Cache) (k v : String) : Cache :=
  ((k, v) :: cacheDel c k).take rewriteCacheMax

/-- Lookup, the get call of the cache. -/
def cacheGet (c : Cache) (k : String) : Option String :=
  (c.find? fun p => decide (p.1 = k)).map (fun p => p.2)

/-- The watcher change handler of moduleRewritePlugin (lines 30-35):
derive the public request path of the changed file through the resolver
and delete that key from the rewrite cache. -/
def watcherOnChange (resolver : InternalResolver) (c : Cache) (file : String) : Cache :=
  cacheDel c (resolver.fileToRequest file)

theorem cacheGet_cons_ne (p : String × String) (c : Cache) (k : String)
    (hpk : ¬ p.1 = k) : cacheGet (p :: c) k = cacheGet c k := by
  simp [cacheGet, List.find?_cons, hpk]

theorem cacheGet_cacheDel (c : Cache) (k k' : String) :
    cacheGet (cacheDel c k') k = if k = k' then none else cacheGet c k := by
  induction c with
  | nil => simp [cacheGet, cacheDel]
  | cons p c ih =>
    by_cases hp : p.1 = k'
    · have hdel : cacheDel (p :: c) k' = cacheDel c k' := by
        simp [cacheDel, List.filter_cons, hp]
      rw [hdel, ih]
      by_cases hk : k = k'
      · simp [hk]
      · have hpk : ¬ p.1 = k := by
          intro h
          exact hk (by rw [← h, hp])
        rw [cacheGet_cons_ne p c k hpk]
    · have hdel : cacheDel (p :: c) k' = p :: cacheDel c k' := by
        simp [cacheDel, List.filter_cons, hp]
      rw [hdel]
      by_cases hpk : p.1 = k
      · have hk : ¬ k = k' := fun h => hp (hpk.trans h)
        simp [cacheGet, List.find?_cons, hpk, hk]
      · rw [cacheGet_cons_ne p _ k hpk, cacheGet_cons_ne p c k hpk, ih]

theorem cacheGet_cacheSet_self (c : Cache) (k v : String) :
    cacheGet (cacheSet c k v) k = some v := by
  have h1024 : rewriteCacheMax = 1023 + 1 := rfl
  simp [cacheSet, h1024, List.take_succ_cons, cacheGet, List.find?_cons]

/-- A JS Set of strings: insertion-ordered, duplicate-free by
construction of setAdd. -/
abbrev StrSet := List String

/-- The add call of a JS Set. -/
def setAdd (s : StrSet) (x : String) : StrSet :=
  if x ∈ s then s else s ++ [x]

/-- The delete call of a JS Set. -/
def setDel (s : StrSet) (x : String) : StrSet :=
  s.filter fun y => decide (y ≠ x)

/-- A JS Map from strings to string sets, as an insertion-ordered
association list. -/
abbrev StrMap := List (String × StrSet)

/-- The get call of a JS Map. -/
def mapGet (m : StrMap) (k : String) : Option StrSet :=
  (m.find? fun p => decide (p.1 = k)).map (fun p => p.2)

/-- Lookup defaulting to the empty set. -/
def mapGetD (m : StrMap) (k : String) : StrSet :=
  (mapGet m k).getD []

/-- The set call of a JS Map: replace in place, or append a new entry. -/
def mapSet (m : StrMap) (k : String) (v : StrSet) : StrMap :=
  match m with
  | [] => [(k, v)]
  | p :: rest => if p.1 = k then (k, v) :: rest else p :: mapSet rest k v

/-- Modelled from the spec: the dependency-graph state declared in
serverPluginHmr (not under src/); section 4.3 describes it as two plain
mutable multimaps, importer to importees and importee to importers, with
membership-only semantics. -/
structure RwState where
  importeeMap : StrMap
  importerMap : StrMap
deriving DecidableEq

/-- Modelled from the spec: ensureMapEntry of serverPluginHmr (not under
src/) combined with the following add call — create the entry on first
edge insertion and add the value to the keyed set. -/
def mapAddTo (m : StrMap) (k v : String) : StrMap :=
  mapSet m k (setAdd (mapGetD m k) v)

/-- One import location reported by the es-module-lexer collaborator:
start offset s, end offset e of the specifier, and dynamic index d, which
is -1 for a static import, nonnegative for a dynamic import expression and
-2 for an import-meta reference. -/
structure ImportSpec where
  s : Nat
  e : Nat
  d : Int
deriving DecidableEq

/-- One MagicString overwrite: replace the range from start to stop of the
original text with repl.  Offsets always refer to the original text. -/
structure Edit where
  start : Nat
  stop : Nat
  repl : String
deriving DecidableEq

instance {ε α : Type} [DecidableEq ε] [DecidableEq α] : DecidableEq (Except ε α) :=
  fun a b =>
  match a, b with
  | Except.error e, Except.error f =>
    if h : e = f then isTrue (by rw [h]) else isFalse (fun hh => h (Except.error.inj hh))
  | Except.error _, Except.ok _ => isFalse (fun hh => Except.noConfusion hh)
  | Except.ok _, Except.error _ => isFalse (fun hh => Except.noConfusion hh)
  | Except.ok x, Except.ok y =>
    if h : x = y then isTrue (by rw [h]) else isFalse (fun hh => h (Except.ok.inj hh))

/-- The slice of the original text between two offsets. -/
def seg (src : List Char) (a b : Nat) : List Char :=
  (src.drop a).take (b - a)

/-- Materialisation of MagicString edits against the immutable original
text: for left-to-right non-overlapping edits, emit the untouched gap
before each edit, then its replacement, and finally the untouched tail. -/
def applyEditsAux (src : List Char) (pos : Nat) : List Edit → List Char
  | [] => src.drop pos
  | ed :: rest => seg src pos ed.start ++ ed.repl.toList ++ applyEditsAux src ed.stop rest

/-- The toString call of a MagicString holding the given edits. -/
def magicToString (src : List Char) (edits : List Edit) : List Char :=
  applyEditsAux src 0 edits

/-- The collaborators of rewriteImports that live outside this file:
hmrClientPublicPath and rewriteFileWithHMR come from serverPluginHmr (the
transformer patches accept call sites by adding edits to the MagicString
buffer and may throw), and importeeOf models the Node path plumbing
slash(path.resolve(path.dirname(importer), resolved)) of line 196. -/
structure Externals where
  hmrClientPublicPath : String
  rewriteFileWithHMR : String → String → List Edit → Except String (List Edit)
  importeeOf : String → String → String

/-- Classification of one static specifier (lines 148-176): the bare
branch resolves through the resolver with the virtual-namespace fallback
and, when the result is the HMR client path and the importer is not a vue
request, runs the HMR transformer over the buffer and marks the pass as
having replaced; the relative/absolute branch is rewriteRelative.  The
value is the resolved specifier text, the updated edit buffer and the
updated hasReplaced flag. -/
def staticResolve (ext : Externals) (resolver : InternalResolver)
    (source importer : String) (timestamp : Option String)
    (edits : List Edit) (hasReplaced : Bool) (id : String) :
    Except String (String × List Edit × Bool) :=
  if isBareSpecifier id then
    if resolveBare resolver id = ext.hmrClientPublicPath ∧ testVueRE importer = false then
      match ext.rewriteFileWithHMR source importer edits with
      | Except.error err => Except.error err
      | Except.ok es => Except.ok (resolveBare resolver id, es, true)
    else Except.ok (resolveBare resolver id, edits, hasReplaced)
  else Except.ok (rewriteRelative id timestamp, edits, hasReplaced)

/-- Accumulator of the forEach loop of rewriteImports: the shared graph
state, the MagicString edit buffer, and the hasReplaced flag. -/
structure LoopAcc where
  st : RwState
  edits : List Edit
  hasReplaced : Bool
deriving DecidableEq

/-- The forEach loop of rewriteImports (lines 145-207): for each static import,
extract the specifier, classify it, overwrite its range when the
resolved text differs, and record the edge in both graph maps; dynamic imports
(and import-meta references) are skipped.  A thrown error carries
the graph state at the moment of the throw. -/
def processImports (ext : Externals) (resolver : InternalResolver)
    (source importer : String) (timestamp : Option String) :
    LoopAcc → List ImportSpec → Except (String × RwState) LoopAcc
  | acc, [] => Except.ok acc
  | acc, imp :: rest =>
    if imp.d = -1 then
      match staticResolve ext resolver source importer timestamp acc.edits acc.hasReplaced
          (String.mk (seg source.toList imp.s imp.e)) with
      | Except.error err => Except.error (err, acc.st)
      | Except.ok (resolved, edits1, rep1) =>
        processImports ext resolver source importer timestamp
          ⟨{ importeeMap :=
                mapAddTo acc.st.importeeMap importer (ext.importeeOf importer resolved)
             importerMap :=
                mapAddTo acc.st.importerMap (ext.importeeOf importer resolved) importer },
            if resolved ≠ String.mk (seg source.toList imp.s imp.e) then
              edits1 ++ [Edit.mk imp.s imp.e resolved]
            else edits1,
            if resolved ≠ String.mk (seg source.toList imp.s imp.e) then true else rep1⟩
          rest
    else
      processImports ext resolver source importer timestamp acc rest

/-- The body of the stale-edge forEach (lines 211-217): skip importees of
the current set; otherwise, when the importee has an importer set, delete
the importer from it. -/
def diffDelStep (current : StrSet) (importer : String) (m : StrMap) (e : String) : StrMap :=
  if e ∈ current then m
  else
    match mapGet m e with
    | none => m
    | some importers => mapSet m e (setDel importers importer)

/-- The stale-edge diff of rewriteImports (lines 209-218): for every importee
of the previous pass absent from the current importee entry,
delete the importer from that importee's importer set (when it has one). -/
def diffPrev (st : RwState) (importer : String) (prev : Option StrSet) : RwState :=
  match prev with
  | none => st
  | some prevSet =>
    { st with
      importerMap := prevSet.foldl
        (diffDelStep (mapGetD st.importeeMap importer) importer) st.importerMap }

/-- The console.error line of the catch block (lines 220-223). -/
def rewriteFailMsg (importer : String) : String :=
  "[vite] Error: module imports rewrite failed for " ++ importer ++ ".\n"

/-- Result of one rewriteImports call: the graph state, the body handed
back to the response path, and the diagnostics written by the catch block
(console.error message, thrown error, offending source). -/
structure RwResult where
  st : RwState
  body : String
  errors : List String
deriving DecidableEq

/-- rewriteImports (lines 126-227), with the es-module-lexer parse
function as the parse parameter.  On a parse result with imports, snapshot
the previous importee entry, replace it by a fresh empty set, run the
loop, diff away stale edges and materialise the edits when any replacement
happened; with no imports, or when anything inside the try block throws,
the original source is returned — a throw keeps whatever graph state the
loop had already built. -/
def rewriteImports (parse : String → Except String (List ImportSpec))
    (ext : Externals) (resolver : InternalResolver) (st : RwState)
    (source importer : String) (timestamp : Option String) : RwResult :=
  match parse source with
  | Except.error err => ⟨st, source, [rewriteFailMsg importer, err, source]⟩
  | Except.ok imports =>
    if imports.length ≠ 0 then
      let prev := mapGet st.importeeMap importer
      let st1 : RwState := { st with importeeMap := mapSet st.importeeMap importer [] }
      match processImports ext resolver source importer timestamp ⟨st1, [], false⟩ imports with
      | Except.error (err, stErr) => ⟨stErr, source, [rewriteFailMsg importer, err, source]⟩
      | Except.ok acc =>
        let st2 := diffPrev acc.st importer prev
        ⟨st2,
          if acc.hasReplaced then String.mk (magicToString source.toList acc.edits)
          else source,
          []⟩
    else ⟨st, source, []⟩

theorem mem_setAdd (s : StrSet) (x y : String) :
    x ∈ setAdd s y ↔ x ∈ s ∨ x = y := by
  by_cases hy : y ∈ s
  · simp only [setAdd, if_pos hy]
    constructor
    · exact Or.inl
    · rintro (h | rfl)
      · exact h
      · exact hy
  · simp [setAdd, if_neg hy]

theorem mem_setDel (s : StrSet) (x y : String) :
    x ∈ setDel s y ↔ x ∈ s ∧ x ≠ y := by
  simp [setDel, List.mem_filter]

theorem mapGet_mapSet_self (m : StrMap) (k : String) (v : StrSet) :
    mapGet (mapSet m k v) k = some v := by
  induction m with
  | nil => simp [mapSet, mapGet, List.find?_cons]
  | cons p rest ih =>
    by_cases hp : p.1 = k
    · simp [mapSet, hp, mapGet, List.find?_cons]
    · simp only [mapSet, if_neg hp]
      rw [show mapGet (p :: mapSet rest k v) k = mapGet (mapSet rest k v) k from by
        simp [mapGet, List.find?_cons, hp]]
      exact ih

theorem mapGet_mapSet_ne (m : StrMap) (k k' : String) (v : StrSet) (h : ¬ k' = k) :
    mapGet (mapSet m k v) k' = mapGet m k' := by
  induction m with
  | nil =>
    have : ¬ (k = k') := fun hh => h hh.symm
    simp [mapSet, mapGet, List.find?_cons, this]
  | cons p rest ih =>
    by_cases hp : p.1 = k
    · have hpk' : ¬ p.1 = k' := fun hh => h (hh ▸ hp ▸ rfl)
      have hkk' : ¬ (k = k') := fun hh => h hh.symm
      simp [mapSet, hp, mapGet, List.find?_cons, hpk', hkk']
    · simp only [mapSet, if_neg hp]
      by_cases hpk' : p.1 = k'
      · simp [mapGet, List.find?_cons, hpk']
      · rw [show mapGet (p :: mapSet rest k v) k' = mapGet (mapSet rest k v) k' from by
          simp [mapGet, List.find?_cons, hpk'],
          show mapGet (p :: rest) k' = mapGet rest k' from by
          simp [mapGet, List.find?_cons, hpk']]
        exact ih

theorem mapGetD_mapSet_self (m : StrMap) (k : String) (v : StrSet) :
    mapGetD (mapSet m k v) k = v := by
  simp [mapGetD, mapGet_mapSet_self]

theorem mapGetD_mapSet_ne (m : StrMap) (k k' : String) (v : StrSet) (h : ¬ k' = k) :
    mapGetD (mapSet m k v) k' = mapGetD m k' := by
  simp [mapGetD, mapGet_mapSet_ne m k k' v h]

theorem mapGetD_mapAddTo_self (m : StrMap) (k v : String) :
    mapGetD (mapAddTo m k v) k = setAdd (mapGetD m k) v := by
  simp [mapAddTo, mapGetD_mapSet_self]

theorem mapGet_mapAddTo_ne (m : StrMap) (k k' v : String) (h : ¬ k' = k) :
    mapGet (mapAddTo m k v) k' = mapGet m k' := by
  simp [mapAddTo, mapGet_mapSet_ne _ _ _ _ h]

theorem mem_mapGetD_mapAddTo (m : StrMap) (k v : String) (k' x : String) :
    x ∈ mapGetD (mapAddTo m k v) k' ↔
      x ∈ mapGetD m k' ∨ (k' = k ∧ x = v) := by
  by_cases hk : k' = k
  · subst hk
    rw [mapGetD_mapAddTo_self, mem_setAdd]
    simp
  · rw [show mapGetD (mapAddTo m k v) k' = mapGetD m k' from by
      simp [mapGetD, mapGet_mapAddTo_ne m k k' v hk]]
    simp [hk]

/-- The resolved specifier text of one static import, merging the two
branches of lines 148-176. -/
def resolvedOf (resolver : InternalResolver) (timestamp : Option String) (id : String) : String :=
  if isBareSpecifier id then resolveBare resolver id else rewriteRelative id timestamp

/-- The importees one loop run records for the importer, in source
order. -/
def collectImportees (ext : Externals) (resolver : InternalResolver)
    (source importer : String) (timestamp : Option String) :
    List ImportSpec → List String
  | [] => []
  | imp :: rest =>
    if imp.d = -1 then
      ext.importeeOf importer
          (resolvedOf resolver timestamp (String.mk (seg source.toList imp.s imp.e)))
        :: collectImportees ext resolver source importer timestamp rest
    else collectImportees ext resolver source importer timestamp rest

/-- The overwrite edits one loop run appends, in source order: only static imports
whose resolved text differs from the original contribute. -/
def editsOf (resolver : InternalResolver) (source : String) (timestamp : Option String) :
    List ImportSpec → List Edit
  | [] => []
  | imp :: rest =>
    (if imp.d = -1 then
      (let id := String.mk (seg source.toList imp.s imp.e)
       let resolved := resolvedOf resolver timestamp id
       if resolved ≠ id then [Edit.mk imp.s imp.e resolved] else [])
     else []) ++ editsOf resolver source timestamp rest

theorem staticResolve_ok_resolved (ext : Externals) (resolver : InternalResolver)
    (source importer : String) (ts : Option String) (edits : List Edit) (rep : Bool)
    (id : String) (out : String × List Edit × Bool)
    (h : staticResolve ext resolver source importer ts edits rep id = Except.ok out) :
    out.1 = resolvedOf resolver ts id := by
  unfold staticResolve at h
  unfold resolvedOf
  by_cases hb : isBareSpecifier id
  · simp only [if_pos hb] at h ⊢
    by_cases hcond : resolveBare resolver id = ext.hmrClientPublicPath ∧
        testVueRE importer = false
    · simp only [if_pos hcond] at h
      cases hrw : ext.rewriteFileWithHMR source importer edits with
      | error err => simp [hrw] at h
      | ok es =>
        simp only [hrw, Except.ok.injEq] at h
        rw [← h]
    · simp only [if_neg hcond, Except.ok.injEq] at h
      rw [← h]
  · simp only [if_neg hb, Except.ok.injEq] at h ⊢
    rw [← h]

theorem staticResolve_hmrok (ext : Externals) (resolver : InternalResolver)
    (source importer : String) (ts : Option String) (edits : List Edit) (rep : Bool)
    (id : String)
    (hH : ∀ s i es, ∃ es', ext.rewriteFileWithHMR s i es = Except.ok es') :
    ∃ es b, staticResolve ext resolver source importer ts edits rep id =
      Except.ok (resolvedOf resolver ts id, es, b) := by
  unfold staticResolve resolvedOf
  by_cases hb : isBareSpecifier id
  · simp only [if_pos hb]
    by_cases hcond : resolveBare resolver id = ext.hmrClientPublicPath ∧
        testVueRE importer = false
    · simp only [if_pos hcond]
      obtain ⟨es', hes'⟩ := hH source importer edits
      simp only [hes']
      exact ⟨es', true, rfl⟩
    · simp only [if_neg hcond]
      exact ⟨edits, rep, rfl⟩
  · simp only [if_neg hb]
    exact ⟨edits, rep, rfl⟩

theorem staticResolve_hmrid (ext : Externals) (resolver : InternalResolver)
    (source importer : String) (ts : Option String) (edits : List Edit) (rep : Bool)
    (id : String)
    (hH : ∀ s i es, ext.rewriteFileWithHMR s i es = Except.ok es) :
    ∃ b, staticResolve ext resolver source importer ts edits rep id =
      Except.ok (resolvedOf resolver ts id, edits, b) := by
  unfold staticResolve resolvedOf
  by_cases hb : isBareSpecifier id
  · simp only [if_pos hb]
    by_cases hcond : resolveBare resolver id = ext.hmrClientPublicPath ∧
        testVueRE importer = false
    · simp only [if_pos hcond, hH source importer edits]
      exact ⟨true, rfl⟩
    · simp only [if_neg hcond]
      exact ⟨rep, rfl⟩
  · simp only [if_neg hb]
    exact ⟨rep, rfl⟩

theorem processImports_ok_spec (ext : Externals) (resolver : InternalResolver)
    (source importer : String) (ts : Option String) :
    ∀ (imports : List ImportSpec) (acc acc' : LoopAcc),
    processImports ext resolver source importer ts acc imports = Except.ok acc' →
    (∀ J, ¬ J = importer →
      mapGet acc'.st.importeeMap J = mapGet acc.st.importeeMap J) ∧
    (∀ E, E ∈ mapGetD acc'.st.importeeMap importer ↔
      E ∈ mapGetD acc.st.importeeMap importer ∨
        E ∈ collectImportees ext resolver source importer ts imports) ∧
    (∀ E J, J ∈ mapGetD acc'.st.importerMap E ↔
      J ∈ mapGetD acc.st.importerMap E ∨
        (J = importer ∧ E ∈ collectImportees ext resolver source importer ts imports)) := by
  intro imports
  induction imports with
  | nil =>
    intro acc acc' h
    simp only [processImports] at h
    cases h
    simp [collectImportees]
  | cons imp rest ih =>
    intro acc acc' h
    by_cases hd : imp.d = -1
    · rcases hsr : staticResolve ext resolver source importer ts acc.edits acc.hasReplaced
          (String.mk (seg source.toList imp.s imp.e)) with err | out
      · simp only [processImports, if_pos hd, hsr] at h
        exact absurd h (by simp)
      · obtain ⟨r, es, b⟩ := out
        have hres : r = resolvedOf resolver ts
            (String.mk (seg source.toList imp.s imp.e)) :=
          staticResolve_ok_resolved ext resolver source importer ts acc.edits
            acc.hasReplaced _ _ hsr
        subst hres
        simp only [processImports, if_pos hd, hsr] at h
        obtain ⟨ih1, ih2, ih3⟩ := ih _ acc' h
        refine ⟨?_, ?_, ?_⟩
        · intro J hJ
          rw [ih1 J hJ]
          exact mapGet_mapAddTo_ne acc.st.importeeMap importer J _ hJ
        · intro E
          rw [ih2 E]
          simp only [collectImportees, if_pos hd, List.mem_cons,
            mapGetD_mapAddTo_self, mem_setAdd]
          tauto
        · intro E J
          rw [ih3 E J]
          simp only [collectImportees, if_pos hd, List.mem_cons,
            mem_mapGetD_mapAddTo]
          tauto
    · simp only [processImports, if_neg hd] at h
      obtain ⟨ih1, ih2, ih3⟩ := ih _ acc' h
      refine ⟨ih1, ?_, ?_⟩
      · intro E
        rw [ih2 E]
        simp [collectImportees, hd]
      · intro E J
        rw [ih3 E J]
        simp [collectImportees, hd]

theorem processImports_hmrok (ext : Externals) (resolver : InternalResolver)
    (source importer : String) (ts : Option String)
    (hH : ∀ s i es, ∃ es', ext.rewriteFileWithHMR s i es = Except.ok es') :
    ∀ (imports : List ImportSpec) (acc : LoopAcc),
    ∃ acc', processImports ext resolver source importer ts acc imports = Except.ok acc' := by
  intro imports
  induction imports with
  | nil =>
    intro acc
    exact ⟨acc, rfl⟩
  | cons imp rest ih =>
    intro acc
    by_cases hd : imp.d = -1
    · obtain ⟨es, b, hsr⟩ := staticResolve_hmrok ext resolver source importer ts
        acc.edits acc.hasReplaced (String.mk (seg source.toList imp.s imp.e)) hH
      simp only [processImports, if_pos hd, hsr]
      exact ih _
    · simp only [processImports, if_neg hd]
      exact ih acc

theorem processImports_hmrid_edits (ext : Externals) (resolver : InternalResolver)
    (source importer : String) (ts : Option String)
    (hH : ∀ s i es, ext.rewriteFileWithHMR s i es = Except.ok es) :
    ∀ (imports : List ImportSpec) (acc : LoopAcc),
    ∃ st' rep', processImports ext resolver source importer ts acc imports =
      Except.ok ⟨st', acc.edits ++ editsOf resolver source ts imports, rep'⟩ := by
  intro imports
  induction imports with
  | nil =>
    intro acc
    exact ⟨acc.st, acc.hasReplaced, by simp [processImports, editsOf]⟩
  | cons imp rest ih =>
    intro acc
    by_cases hd : imp.d = -1
    · obtain ⟨b, hsr⟩ := staticResolve_hmrid ext resolver source importer ts
        acc.edits acc.hasReplaced (String.mk (seg source.toList imp.s imp.e)) hH
      by_cases hne : resolvedOf resolver ts (String.mk (seg source.toList imp.s imp.e)) ≠
          String.mk (seg source.toList imp.s imp.e)
      · obtain ⟨st', rep', hrec⟩ := ih
          ⟨{ importeeMap := mapAddTo acc.st.importeeMap importer
                (ext.importeeOf importer (resolvedOf resolver ts
                  (String.mk (seg source.toList imp.s imp.e))))
             importerMap := mapAddTo acc.st.importerMap
                (ext.importeeOf importer (resolvedOf resolver ts
                  (String.mk (seg source.toList imp.s imp.e)))) importer },
            acc.edits ++ [Edit.mk imp.s imp.e (resolvedOf resolver ts
              (String.mk (seg source.toList imp.s imp.e)))], true⟩
        refine ⟨st', rep', ?_⟩
        simp only [processImports, if_pos hd, hsr, if_pos hne]
        rw [hrec]
        simp only [editsOf, if_pos hd, if_pos hne, List.append_assoc,
          List.singleton_append]
      · obtain ⟨st', rep', hrec⟩ := ih
          ⟨{ importeeMap := mapAddTo acc.st.importeeMap importer
                (ext.importeeOf importer (resolvedOf resolver ts
                  (String.mk (seg source.toList imp.s imp.e))))
             importerMap := mapAddTo acc.st.importerMap
                (ext.importeeOf importer (resolvedOf resolver ts
                  (String.mk (seg source.toList imp.s imp.e)))) importer },
            acc.edits, b⟩
        refine ⟨st', rep', ?_⟩
        simp only [processImports, if_pos hd, hsr, if_neg hne]
        rw [hrec]
        simp only [editsOf, if_pos hd, if_neg hne, List.nil_append]
    · obtain ⟨st', rep', hrec⟩ := ih acc
      refine ⟨st', rep', ?_⟩
      simp only [processImports, if_neg hd]
      rw [hrec]
      simp only [editsOf, if_neg hd, List.nil_append]

theorem mem_diffDelStep (current : StrSet) (importer : String) (m : StrMap)
    (E K J : String) :
    J ∈ mapGetD (diffDelStep current importer m E) K ↔
      J ∈ mapGetD m K ∧ ¬(J = importer ∧ K = E ∧ ¬ K ∈ current) := by
  by_cases hKE : K = E
  · subst hKE
    by_cases hKc : K ∈ current
    · rw [diffDelStep, if_pos hKc]
      simp [hKc]
    · rw [diffDelStep, if_neg hKc]
      cases hm : mapGet m K with
      | none =>
        simp only [mapGetD, hm, Option.getD_none, List.not_mem_nil]
        tauto
      | some s =>
        simp only [mapGetD, hm, Option.getD_some, mapGet_mapSet_self,
          mem_setDel, hKc, not_false_iff, and_true, ne_eq]
  · have hunch : mapGetD (diffDelStep current importer m E) K = mapGetD m K := by
      rw [diffDelStep]
      by_cases hEc : E ∈ current
      · rw [if_pos hEc]
      · rw [if_neg hEc]
        cases hm : mapGet m E with
        | none => rfl
        | some s => simp [mapGetD, mapGet_mapSet_ne _ _ _ _ hKE]
    rw [hunch]
    simp [hKE]

theorem mem_foldl_diffDelStep (current : StrSet) (importer : String) :
    ∀ (P : List String) (m : StrMap) (K J : String),
    J ∈ mapGetD (P.foldl (diffDelStep current importer) m) K ↔
      J ∈ mapGetD m K ∧ ¬(J = importer ∧ K ∈ P ∧ ¬ K ∈ current) := by
  intro P
  induction P with
  | nil =>
    intro m K J
    simp
  | cons E P ih =>
    intro m K J
    rw [List.foldl_cons, ih, mem_diffDelStep]
    simp only [List.mem_cons]
    tauto

theorem diffPrev_importeeMap (st : RwState) (importer : String) (prev : Option StrSet) :
    (diffPrev st importer prev).importeeMap = st.importeeMap := by
  cases prev <;> rfl

theorem mem_diffPrev_importerMap (st : RwState) (importer : String)
    (prev : Option StrSet) (K J : String) :
    J ∈ mapGetD (diffPrev st importer prev).importerMap K ↔
      J ∈ mapGetD st.importerMap K ∧
        ¬(J = importer ∧ K ∈ prev.getD [] ∧
          ¬ K ∈ mapGetD st.importeeMap importer) := by
  cases prev with
  | none => simp [diffPrev]
  | some P =>
    simp only [diffPrev, Option.getD_some]
    exact mem_foldl_diffDelStep (mapGetD st.importeeMap importer) importer P
      st.importerMap K J

/-- The bidirectional-edge invariant of section 3 of the spec: every
recorded importee edge has its reverse importer edge and conversely. -/
def symmInv (st : RwState) : Prop :=
  (∀ I E, E ∈ mapGetD st.importeeMap I → I ∈ mapGetD st.importerMap E) ∧
  (∀ I E, I ∈ mapGetD st.importerMap E → E ∈ mapGetD st.importeeMap I)

theorem symmInv_empty : symmInv ⟨[], []⟩ := by
  constructor <;> intro I E h <;> simp [mapGetD, mapGet] at h

theorem rewriteImports_ok_unfold (parse : String → Except String (List ImportSpec))
    (ext : Externals) (resolver : InternalResolver) (st : RwState)
    (source importer : String) (ts : Option String) (imports : List ImportSpec)
    (acc : LoopAcc)
    (hp : parse source = Except.ok imports) (hne : imports ≠ [])
    (hproc : processImports ext resolver source importer ts
      ⟨{ st with importeeMap := mapSet st.importeeMap importer [] }, [], false⟩ imports =
        Except.ok acc) :
    rewriteImports parse ext resolver st source importer ts =
      ⟨diffPrev acc.st importer (mapGet st.importeeMap importer),
        if acc.hasReplaced then String.mk (magicToString source.toList acc.edits)
        else source,
        []⟩ := by
  have hlen : imports.length ≠ 0 := by
    intro h
    exact hne (List.length_eq_zero.mp h)
  simp only [rewriteImports, hp, if_pos hlen, hproc]

theorem rewriteImports_success_spec (parse : String → Except String (List ImportSpec))
    (ext : Externals) (resolver : InternalResolver) (st : RwState)
    (source importer : String) (ts : Option String) (imports : List ImportSpec)
    (hH : ∀ s i es, ∃ es', ext.rewriteFileWithHMR s i es = Except.ok es')
    (hp : parse source = Except.ok imports) (hne : imports ≠ []) :
    (∀ E, E ∈ mapGetD (rewriteImports parse ext resolver st source importer ts).st.importeeMap importer ↔
      E ∈ collectImportees ext resolver source importer ts imports) ∧
    (∀ J, ¬ J = importer →
      mapGet (rewriteImports parse ext resolver st source importer ts).st.importeeMap J =
        mapGet st.importeeMap J) ∧
    (∀ K J, J ∈ mapGetD (rewriteImports parse ext resolver st source importer ts).st.importerMap K ↔
      (J ∈ mapGetD st.importerMap K ∨
        (J = importer ∧ K ∈ collectImportees ext resolver source importer ts imports)) ∧
      ¬(J = importer ∧ K ∈ mapGetD st.importeeMap importer ∧
        ¬ K ∈ collectImportees ext resolver source importer ts imports)) := by
  obtain ⟨acc, hproc⟩ := processImports_hmrok ext resolver source importer ts hH imports
    ⟨{ st with importeeMap := mapSet st.importeeMap importer [] }, [], false⟩
  obtain ⟨spec1, spec2, spec3⟩ :=
    processImports_ok_spec ext resolver source importer ts imports _ acc hproc
  have spec1' : ∀ J, ¬ J = importer →
      mapGet acc.st.importeeMap J = mapGet (mapSet st.importeeMap importer []) J := spec1
  have spec2' : ∀ E, E ∈ mapGetD acc.st.importeeMap importer ↔
      E ∈ mapGetD (mapSet st.importeeMap importer []) importer ∨
        E ∈ collectImportees ext resolver source importer ts imports := spec2
  have spec3' : ∀ K J, J ∈ mapGetD acc.st.importerMap K ↔
      J ∈ mapGetD st.importerMap K ∨
        (J = importer ∧ K ∈ collectImportees ext resolver source importer ts imports) :=
    spec3
  have hunf := rewriteImports_ok_unfold parse ext resolver st source importer ts
    imports acc hp hne hproc
  have hstR : (rewriteImports parse ext resolver st source importer ts).st =
      diffPrev acc.st importer (mapGet st.importeeMap importer) := by
    rw [hunf]
  have hacc2 : ∀ E, E ∈ mapGetD acc.st.importeeMap importer ↔
      E ∈ collectImportees ext resolver source importer ts imports := by
    intro E
    rw [spec2' E, mapGetD_mapSet_self]
    simp
  refine ⟨?_, ?_, ?_⟩
  · intro E
    rw [hstR, diffPrev_importeeMap]
    exact hacc2 E
  · intro J hJ
    rw [hstR, diffPrev_importeeMap, spec1' J hJ]
    exact mapGet_mapSet_ne st.importeeMap importer J [] hJ
  · intro K J
    rw [hstR, mem_diffPrev_importerMap, spec3' K J, hacc2 K,
      show (mapGet st.importeeMap importer).getD [] = mapGetD st.importeeMap importer
        from rfl]

theorem rewriteImports_preserves_symmInv (parse : String → Except String (List ImportSpec))
    (ext : Externals) (resolver : InternalResolver) (st : RwState)
    (source importer : String) (ts : Option String)
    (hH : ∀ s i es, ∃ es', ext.rewriteFileWithHMR s i es = Except.ok es')
    (hsym : symmInv st) :
    symmInv (rewriteImports parse ext resolver st source importer ts).st := by
  cases hp : parse source with
  | error e =>
    simp only [rewriteImports, hp]
    exact hsym
  | ok imports =>
    by_cases hlen : imports.length ≠ 0
    · have hne : imports ≠ [] := by
        intro h
        subst h
        simp at hlen
      obtain ⟨h1, h2, h3⟩ := rewriteImports_success_spec parse ext resolver st source
        importer ts imports hH hp hne
      constructor
      · intro I E hmem
        by_cases hI : I = importer
        · subst hI
          have hES := (h1 E).mp hmem
          rw [h3 E I]
          exact ⟨Or.inr ⟨rfl, hES⟩, fun hcon => hcon.2.2 hES⟩
        · have hst : E ∈ mapGetD st.importeeMap I := by
            have := h2 I hI
            rw [show mapGetD (rewriteImports parse ext resolver st source importer ts).st.importeeMap I =
              mapGetD st.importeeMap I from by simp [mapGetD, this]] at hmem
            exact hmem
          rw [h3 E I]
          exact ⟨Or.inl (hsym.1 I E hst), fun hcon => hI hcon.1⟩
      · intro I E hmem
        rw [h3 E I] at hmem
        by_cases hI : I = importer
        · subst hI
          by_cases hES : E ∈ collectImportees ext resolver source I ts imports
          · exact (h1 E).mpr hES
          · rcases hmem.1 with hold | hnew
            · have hprev : E ∈ mapGetD st.importeeMap I := hsym.2 I E hold
              exact absurd ⟨rfl, hprev, hES⟩ hmem.2
            · exact absurd hnew.2 hES
        · have hold : I ∈ mapGetD st.importerMap E := by
            rcases hmem.1 with hold | hnew
            · exact hold
            · exact absurd hnew.1 hI
          have hst : E ∈ mapGetD st.importeeMap I := hsym.2 I E hold
          have := h2 I hI
          rw [show mapGetD (rewriteImports parse ext resolver st source importer ts).st.importeeMap I =
            mapGetD st.importeeMap I from by simp [mapGetD, this]]
          exact hst
    · simp only [rewriteImports, hp, if_neg hlen]
      exact hsym

theorem str_toList_append (a b : String) : (a ++ b).toList = a.toList ++ b.toList := by
  cases a
  cases b
  rfl

theorem str_mk_toList (s : String) : String.mk s.toList = s := by
  cases s
  rfl

theorem str_ext {a b : String} (h : a.toList = b.toList) : a = b := by
  cases a
  cases b
  cases h
  rfl

theorem seg_middle (A B C : List Char) :
    seg ((A ++ B) ++ C) A.length (A.length + B.length) = B := by
  rw [seg, List.append_assoc, List.drop_left, Nat.add_sub_cancel_left, List.take_left]

theorem take_first (A B C : List Char) : ((A ++ B) ++ C).take A.length = A := by
  rw [List.append_assoc, List.take_left]

theorem drop_last (A B C : List Char) : ((A ++ B) ++ C).drop (A.length + B.length) = C := by
  rw [show A.length + B.length = (A ++ B).length from (List.length_append A B).symm,
    List.drop_left]

theorem staticResolve_noHmr (ext : Externals) (resolver : InternalResolver)
    (source importer : String) (ts : Option String) (edits : List Edit) (rep : Bool)
    (id : String)
    (hH : isBareSpecifier id = true →
      ¬(resolveBare resolver id = ext.hmrClientPublicPath ∧ testVueRE importer = false)) :
    staticResolve ext resolver source importer ts edits rep id =
      Except.ok (resolvedOf resolver ts id, edits, rep) := by
  unfold staticResolve resolvedOf
  by_cases hb : isBareSpecifier id
  · simp only [if_pos hb, if_neg (hH hb)]
  · simp only [if_neg hb]

/-- The body computed by rewriteImports for a source made of a single
static import whose specifier occupies the middle region, when the import
does not trigger the HMR transformer: the original prefix and suffix are
untouched and the specifier region carries the classified text. -/
theorem rewriteImports_single_body (parse : String → Except String (List ImportSpec))
    (ext : Externals) (resolver : InternalResolver) (st : RwState)
    (pre id post importer : String) (ts : Option String)
    (hp : parse (pre ++ id ++ post) =
      Except.ok [⟨pre.toList.length, pre.toList.length + id.toList.length, -1⟩])
    (hH : isBareSpecifier id = true →
      ¬(resolveBare resolver id = ext.hmrClientPublicPath ∧ testVueRE importer = false)) :
    (rewriteImports parse ext resolver st (pre ++ id ++ post) importer ts).body =
      pre ++ resolvedOf resolver ts id ++ post := by
  have hsrc : (pre ++ id ++ post).toList = (pre.toList ++ id.toList) ++ post.toList := by
    rw [str_toList_append, str_toList_append]
  have hid : String.mk (seg (pre ++ id ++ post).toList pre.toList.length
      (pre.toList.length + id.toList.length)) = id := by
    rw [hsrc, seg_middle, str_mk_toList]
  have hlen : ([⟨pre.toList.length, pre.toList.length + id.toList.length, -1⟩] :
      List ImportSpec).length ≠ 0 := by
    simp
  have hd : (⟨pre.toList.length, pre.toList.length + id.toList.length, -1⟩ :
      ImportSpec).d = -1 := rfl
  have hsr := staticResolve_noHmr ext resolver (pre ++ id ++ post) importer ts [] false id hH
  by_cases hne : resolvedOf resolver ts id ≠ id
  · simp only [rewriteImports, hp, if_pos hlen, processImports, if_pos hd, hid, hsr,
      if_pos hne, List.nil_append]
    apply str_ext
    rw [str_toList_append, str_toList_append]
    show magicToString (pre ++ id ++ post).toList
        [Edit.mk pre.toList.length (pre.toList.length + id.toList.length)
          (resolvedOf resolver ts id)] =
      (pre.toList ++ (resolvedOf resolver ts id).toList) ++ post.toList
    rw [magicToString, applyEditsAux, applyEditsAux]
    show seg (pre ++ id ++ post).toList 0 pre.toList.length ++
        (resolvedOf resolver ts id).toList ++
        (pre ++ id ++ post).toList.drop (pre.toList.length + id.toList.length) =
      (pre.toList ++ (resolvedOf resolver ts id).toList) ++ post.toList
    rw [seg, List.drop_zero, Nat.sub_zero, hsrc, take_first, drop_last,
      List.append_assoc]
  · simp only [rewriteImports, hp, if_pos hlen, processImports, if_pos hd, hid, hsr,
      if_neg hne]
    have heq : resolvedOf resolver ts id = id := not_not.mp hne
    rw [heq]
    simp [processImports]

/-- C2: graph symmetry invariant.  Provided the HMR transformer
collaborator returns normally, every rewriteImports call preserves the
bidirectional-edge invariant from any state satisfying it (hence any
sequence of calls does), and when re-rewriting drops importees, each importee
no longer present in the importer's new importee entry no longer
lists the importer in its importer set. -/
theorem C2_graph_symmetry_invariant (parse : String → Except String (List ImportSpec))
    (ext : Externals) (resolver : InternalResolver) (st : RwState)
    (source importer : String) (ts : Option String)
    (hH : ∀ s i es, ∃ es', ext.rewriteFileWithHMR s i es = Except.ok es')
    (hsym : symmInv st) :
    symmInv (rewriteImports parse ext resolver st source importer ts).st ∧
    (∀ E, E ∈ mapGetD st.importeeMap importer →
      ¬ E ∈ mapGetD (rewriteImports parse ext resolver st source importer ts).st.importeeMap
        importer →
      ¬ importer ∈ mapGetD (rewriteImports parse ext resolver st source importer ts).st.importerMap
        E) := by
  refine ⟨rewriteImports_preserves_symmInv parse ext resolver st source importer ts hH hsym,
    ?_⟩
  intro E hEold hEnot
  cases hp : parse source with
  | error e =>
    have hstR : (rewriteImports parse ext resolver st source importer ts).st = st := by
      simp [rewriteImports, hp]
    rw [hstR] at hEnot
    exact absurd hEold hEnot
  | ok imports =>
    by_cases hlen : imports.length ≠ 0
    · have hne : imports ≠ [] := by
        intro h
        subst h
        simp at hlen
      obtain ⟨h1, h2, h3⟩ := rewriteImports_success_spec parse ext resolver st source
        importer ts imports hH hp hne
      intro hmem
      have hnotS : ¬ E ∈ collectImportees ext resolver source importer ts imports :=
        fun hS => hEnot ((h1 E).mpr hS)
      exact ((h3 E importer).mp hmem).2 ⟨rfl, hEold, hnotS⟩
    · have hstR : (rewriteImports parse ext resolver st source importer ts).st = st := by
        simp [rewriteImports, hp, hlen]
      rw [hstR] at hEnot
      exact absurd hEold hEnot

/-- C4: when lexing fails, rewriteImports catches the failure, returns the
original source with the graph untouched, and logs the console.error
diagnostic naming the importer, the thrown error and the offending
source; the failure is never propagated (the function is total and its
result is this value). -/
theorem C4_lex_failure_recovery (parse : String → Except String (List ImportSpec))
    (ext : Externals) (resolver : InternalResolver) (st : RwState)
    (source importer : String) (ts : Option String) (e : String)
    (hp : parse source = Except.error e) :
    rewriteImports parse ext resolver st source importer ts =
      ⟨st, source, [rewriteFailMsg importer, e, source]⟩ ∧
    rewriteFailMsg importer =
      "[vite] Error: module imports rewrite failed for " ++ importer ++ ".\n" := by
  exact ⟨by simp only [rewriteImports, hp], rfl⟩

/-- C5: a source whose parse yields zero import/export statements is
returned unchanged, with no mutation of either graph map and no
diagnostics. -/
theorem C5_no_imports_frame (parse : String → Except String (List ImportSpec))
    (ext : Externals) (resolver : InternalResolver) (st : RwState)
    (source importer : String) (ts : Option String)
    (hp : parse source = Except.ok []) :
    rewriteImports parse ext resolver st source importer ts = ⟨st, source, []⟩ := by
  simp [rewriteImports, hp]

/-- C3 counterexample: the relative specifier "./a.b/c" has no file
extension in the claim's sense (its final segment "c" contains no dot),
yet the rewritten path gains no ".js" and is returned unchanged: the
code's extension check is the unanchored dot-word regex, which the
directory name "a.b" already satisfies. -/
theorem C3_counterexample :
    specHasFileExtension "./a.b/c" = false ∧
    isBareSpecifier "./a.b/c" = false ∧
    rewriteRelative "./a.b/c" none = "./a.b/c" ∧
    hasJsSuffix (rewriteRelative "./a.b/c" none) = false := by
  refine ⟨by decide, by decide, by decide, by decide⟩

/-- C3 (amended): for a static relative/absolute specifier occupying the
middle region of a single-import source, the rewritten body preserves the
prefix and suffix and carries the classified specifier, which splits the
specifier at the first question mark, appends ".js" exactly when the
pathname contains no dot-followed-by-word-character anywhere (the code's
extension heuristic, in place of the claimed "has no file extension"),
preserves the query, and under a truthy refresh token appends exactly one
t= parameter, introduced by a question mark when the query was empty and
by an ampersand otherwise. -/
theorem C3_relative_rewrite (parse : String → Except String (List ImportSpec))
    (ext : Externals) (resolver : InternalResolver) (st : RwState)
    (pre id post importer : String) (ts : Option String)
    (hp : parse (pre ++ id ++ post) =
      Except.ok [⟨pre.toList.length, pre.toList.length + id.toList.length, -1⟩])
    (hb : isBareSpecifier id = false) :
    (rewriteImports parse ext resolver st (pre ++ id ++ post) importer ts).body =
      pre ++ rewriteRelative id ts ++ post ∧
    rewriteRelative id ts =
      (if hasDotWord (splitQuery id).1 then (splitQuery id).1
        else (splitQuery id).1 ++ ".js") ++
      (splitQuery id).2 ++
      (if tsTruthy ts then
        (if (splitQuery id).2 = "" then "?" else "&") ++ "t=" ++ ts.getD ""
      else "") := by
  constructor
  · have h := rewriteImports_single_body parse ext resolver st pre id post importer ts hp
      (fun hbt => by simp [hb] at hbt)
    rwa [show resolvedOf resolver ts id = rewriteRelative id ts from by
      simp [resolvedOf, hb]] at h
  · simp only [rewriteRelative]
    by_cases htt : tsTruthy ts = true
    · simp only [if_pos htt]
      apply str_ext
      simp [str_toList_append]
    · simp only [if_neg htt]
      apply str_ext
      simp [str_toList_append]

/-- C7: for a static bare specifier occupying the middle region of a
single-import source that does not trigger the HMR transformer, the
rewritten body carries the bare-branch resolution, which equals the
resolver's output whenever the resolver resolves the id to a (nonempty)
request path and equals the virtual-namespace fallback concatenation when
the resolver yields nothing; classification is a total function and never
raises. -/
theorem C7_bare_specifier (parse : String → Except String (List ImportSpec))
    (ext : Externals) (resolver : InternalResolver) (st : RwState)
    (pre id post importer : String) (ts : Option String)
    (hp : parse (pre ++ id ++ post) =
      Except.ok [⟨pre.toList.length, pre.toList.length + id.toList.length, -1⟩])
    (hb : isBareSpecifier id = true)
    (hNoHmr : ¬(resolveBare resolver id = ext.hmrClientPublicPath ∧
      testVueRE importer = false)) :
    (rewriteImports parse ext resolver st (pre ++ id ++ post) importer ts).body =
      pre ++ resolveBare resolver id ++ post ∧
    (∀ r, resolver.idToRequest id = some r → ¬ r = "" → resolveBare resolver id = r) ∧
    (resolver.idToRequest id = none → resolveBare resolver id = "/@modules/" ++ id) := by
  refine ⟨?_, ?_, ?_⟩
  · have h := rewriteImports_single_body parse ext resolver st pre id post importer ts hp
      (fun _ => hNoHmr)
    rwa [show resolvedOf resolver ts id = resolveBare resolver id from by
      simp [resolvedOf, hb]] at h
  · intro r hr hrne
    simp [resolveBare, hr, hrne]
  · intro hr
    simp [resolveBare, hr]

/-- C9 (implicit): rewrite is not atomic with respect to graph state on
error.  For a two-import source whose first import is relative and whose
second is a bare import resolving to the HMR client path with a throwing
HMR transformer, the original source is returned, yet the importer's importee
entry has already been replaced by the partially built set
holding only the first importee, and the stale-edge diff never ran: the importer
is still listed in the importer set of a previous importee that
the partial set no longer contains. -/
theorem C9_error_non_atomicity (parse : String → Except String (List ImportSpec))
    (ext : Externals) (resolver : InternalResolver) (st : RwState)
    (source importer : String) (ts : Option String) (i1 i2 : ImportSpec)
    (msg E0 : String) (prevSet : StrSet)
    (hp : parse source = Except.ok [i1, i2])
    (hd1 : i1.d = -1) (hd2 : i2.d = -1)
    (hb1 : isBareSpecifier (String.mk (seg source.toList i1.s i1.e)) = false)
    (hb2 : isBareSpecifier (String.mk (seg source.toList i2.s i2.e)) = true)
    (hcond : resolveBare resolver (String.mk (seg source.toList i2.s i2.e)) =
        ext.hmrClientPublicPath ∧ testVueRE importer = false)
    (hthrow : ∀ es, ext.rewriteFileWithHMR source importer es = Except.error msg)
    (hprev : mapGet st.importeeMap importer = some prevSet)
    (hprevE : E0 ∈ prevSet)
    (hE0ne : ¬ E0 = ext.importeeOf importer
      (rewriteRelative (String.mk (seg source.toList i1.s i1.e)) ts))
    (hE0in : importer ∈ mapGetD st.importerMap E0) :
    (rewriteImports parse ext resolver st source importer ts).body = source ∧
    mapGetD (rewriteImports parse ext resolver st source importer ts).st.importeeMap
        importer =
      [ext.importeeOf importer
        (rewriteRelative (String.mk (seg source.toList i1.s i1.e)) ts)] ∧
    importer ∈ mapGetD (rewriteImports parse ext resolver st source importer ts).st.importerMap
      E0 := by
  have hlen : ([i1, i2] : List ImportSpec).length ≠ 0 := by simp
  have hsr1 := staticResolve_noHmr ext resolver source importer ts [] false
    (String.mk (seg source.toList i1.s i1.e))
    (fun hbt => (Bool.false_ne_true (hb1.symm.trans hbt)).elim)
  have hres1 : resolvedOf resolver ts (String.mk (seg source.toList i1.s i1.e)) =
      rewriteRelative (String.mk (seg source.toList i1.s i1.e)) ts := by
    unfold resolvedOf
    rw [hb1]
    simp
  have hsr2 : ∀ (edits : List Edit) (rep : Bool),
      staticResolve ext resolver source importer ts edits rep
        (String.mk (seg source.toList i2.s i2.e)) = Except.error msg := by
    intro edits rep
    unfold staticResolve
    rw [if_pos hb2, if_pos hcond, hthrow edits]
  have hrw : rewriteImports parse ext resolver st source importer ts =
      ⟨⟨mapAddTo (mapSet st.importeeMap importer []) importer
          (ext.importeeOf importer
            (rewriteRelative (String.mk (seg source.toList i1.s i1.e)) ts)),
        mapAddTo st.importerMap
          (ext.importeeOf importer
            (rewriteRelative (String.mk (seg source.toList i1.s i1.e)) ts)) importer⟩,
        source, [rewriteFailMsg importer, msg, source]⟩ := by
    simp only [rewriteImports, hp, if_pos hlen, processImports, if_pos hd1, hsr1,
      hres1, if_pos hd2, hsr2]
  refine ⟨by rw [hrw], ?_, ?_⟩
  · rw [hrw]
    show mapGetD (mapAddTo (mapSet st.importeeMap importer []) importer
      (ext.importeeOf importer
        (rewriteRelative (String.mk (seg source.toList i1.s i1.e)) ts))) importer = _
    rw [mapGetD_mapAddTo_self, mapGetD_mapSet_self]
    simp [setAdd]
  · rw [hrw]
    show importer ∈ mapGetD (mapAddTo st.importerMap
      (ext.importeeOf importer
        (rewriteRelative (String.mk (seg source.toList i1.s i1.e)) ts)) importer) E0
    rw [show mapGetD (mapAddTo st.importerMap
        (ext.importeeOf importer
          (rewriteRelative (String.mk (seg source.toList i1.s i1.e)) ts)) importer) E0 =
      mapGetD st.importerMap E0 from by
        unfold mapGetD
        rw [mapGet_mapAddTo_ne st.importerMap _ E0 importer hE0ne]]
    exact hE0in

/-- Well-formedness of the lexer output, the es-module-lexer contract:
specifier ranges are ordered left to right, non-overlapping and within the
source. -/
def importsWF (lo len : Nat) : List ImportSpec → Bool
  | [] => true
  | imp :: rest =>
    decide (lo ≤ imp.s) && decide (imp.s ≤ imp.e) && decide (imp.e ≤ len) &&
      importsWF imp.e len rest

theorem importsWF_cons (lo len : Nat) (imp : ImportSpec) (rest : List ImportSpec) :
    importsWF lo len (imp :: rest) = true ↔
      lo ≤ imp.s ∧ imp.s ≤ imp.e ∧ imp.e ≤ len ∧ importsWF imp.e len rest = true := by
  simp [importsWF, and_assoc]

theorem seg_append (src : List Char) (a b c : Nat) (hab : a ≤ b) (hbc : b ≤ c) :
    seg src a c = seg src a b ++ seg src b c := by
  rw [seg, seg, seg]
  have hc : c - a = (b - a) + (c - b) := by omega
  rw [hc, List.take_add]
  congr 1
  rw [List.drop_drop, Nat.add_sub_cancel' hab]

theorem drop_eq_seg_append (src : List Char) (a b : Nat) (hab : a ≤ b) :
    src.drop a = seg src a b ++ src.drop b := by
  rw [seg]
  conv_lhs => rw [← List.take_append_drop (b - a) (src.drop a)]
  congr 1
  rw [List.drop_drop, Nat.add_sub_cancel' hab]

theorem applyEditsAux_split (src : List Char) (a b : Nat) (E₂ : List Edit)
    (hE₂ : ∀ ed ∈ E₂, b ≤ ed.start) :
    ∀ (E₁ : List Edit) (pos : Nat), (∀ ed ∈ E₁, ed.stop ≤ a) → pos ≤ a → a ≤ b →
    ∃ preOut, applyEditsAux src pos (E₁ ++ E₂) =
      preOut ++ seg src a b ++ applyEditsAux src b E₂ := by
  intro E₁
  induction E₁ with
  | nil =>
    intro pos _ hpa hab
    have hpb : pos ≤ b := le_trans hpa hab
    cases E₂ with
    | nil =>
      refine ⟨seg src pos a, ?_⟩
      simp only [List.nil_append, applyEditsAux]
      rw [drop_eq_seg_append src pos b hpb, seg_append src pos a b hpa hab,
        List.append_assoc]
    | cons ed rest =>
      refine ⟨seg src pos a, ?_⟩
      simp only [List.nil_append, applyEditsAux]
      have hbs : b ≤ ed.start := hE₂ ed (List.mem_cons_self ed rest)
      rw [show seg src pos ed.start =
          seg src pos a ++ (seg src a b ++ seg src b ed.start) from by
        rw [← List.append_assoc, ← seg_append src pos a b hpa hab,
          ← seg_append src pos b ed.start hpb hbs]]
      simp [List.append_assoc]
  | cons ed E₁' ih =>
    intro pos hstops hpa hab
    have hstop : ed.stop ≤ a := hstops ed (List.mem_cons_self _ _)
    obtain ⟨preOut, hpre⟩ :=
      ih ed.stop (fun e he => hstops e (List.mem_cons_of_mem _ he)) hstop hab
    refine ⟨seg src pos ed.start ++ ed.repl.toList ++ preOut, ?_⟩
    show seg src pos ed.start ++ ed.repl.toList ++ applyEditsAux src ed.stop (E₁' ++ E₂) = _
    rw [hpre]
    simp [List.append_assoc]

theorem editsOf_append (resolver : InternalResolver) (source : String)
    (ts : Option String) (xs ys : List ImportSpec) :
    editsOf resolver source ts (xs ++ ys) =
      editsOf resolver source ts xs ++ editsOf resolver source ts ys := by
  induction xs with
  | nil => simp [editsOf]
  | cons x xs ih =>
    simp only [List.cons_append, editsOf]
    rw [show editsOf resolver source ts (xs.append ys) =
        editsOf resolver source ts xs ++ editsOf resolver source ts ys from ih,
      List.append_assoc]

theorem editsOf_stop_le (resolver : InternalResolver) (source : String)
    (ts : Option String) :
    ∀ (I₁ : List ImportSpec) (lo len : Nat) (dimp : ImportSpec) (I₂ : List ImportSpec),
    importsWF lo len (I₁ ++ dimp :: I₂) = true →
    lo ≤ dimp.s ∧ (∀ ed ∈ editsOf resolver source ts I₁, ed.stop ≤ dimp.s) ∧
      dimp.s ≤ dimp.e ∧ importsWF dimp.e len I₂ = true := by
  intro I₁
  induction I₁ with
  | nil =>
    intro lo len dimp I₂ h
    rw [List.nil_append] at h
    obtain ⟨h1, h2, _, h4⟩ := (importsWF_cons lo len dimp I₂).mp h
    exact ⟨h1, by simp [editsOf], h2, h4⟩
  | cons imp rest ih =>
    intro lo len dimp I₂ h
    rw [List.cons_append] at h
    obtain ⟨h1, h2, _, h4⟩ := (importsWF_cons lo len imp (rest ++ dimp :: I₂)).mp h
    obtain ⟨ih1, ih2, ih3, ih4⟩ := ih imp.e len dimp I₂ h4
    refine ⟨le_trans h1 (le_trans h2 ih1), ?_, ih3, ih4⟩
    intro ed hed
    simp only [editsOf] at hed
    rcases List.mem_append.mp hed with hl | hr
    · have hstop : ed.stop = imp.e := by
        split at hl
        · split at hl
          · rw [List.mem_singleton] at hl
            subst hl
            rfl
          · simp at hl
        · simp at hl
      rw [hstop]
      exact ih1
    · exact ih2 ed hr

theorem editsOf_start_ge (resolver : InternalResolver) (source : String)
    (ts : Option String) :
    ∀ (ys : List ImportSpec) (lo len : Nat), importsWF lo len ys = true →
    ∀ ed ∈ editsOf resolver source ts ys, lo ≤ ed.start := by
  intro ys
  induction ys with
  | nil =>
    intro lo len _ ed hed
    simp [editsOf] at hed
  | cons imp rest ih =>
    intro lo len h ed hed
    obtain ⟨h1, h2, _, h4⟩ := (importsWF_cons lo len imp rest).mp h
    simp only [editsOf] at hed
    rcases List.mem_append.mp hed with hl | hr
    · have hstart : ed.start = imp.s := by
        split at hl
        · split at hl
          · rw [List.mem_singleton] at hl
            subst hl
            rfl
          · simp at hl
        · simp at hl
      rw [hstart]
      exact h1
    · exact le_trans h1 (le_trans h2 (ih imp.e len h4 ed hr))

/-- C8: a dynamic import expression never contributes an overwrite, so the
rewritten body decomposes around the untouched slice of the original
source covering the dynamic specifier's range; this holds whatever the
specifier's shape, whether or not any static import was replaced. -/
theorem C8_dynamic_import_untouched (parse : String → Except String (List ImportSpec))
    (ext : Externals) (resolver : InternalResolver) (st : RwState)
    (source importer : String) (ts : Option String)
    (I₁ I₂ : List ImportSpec) (dimp : ImportSpec)
    (hp : parse source = Except.ok (I₁ ++ dimp :: I₂))
    (hdyn : 0 ≤ dimp.d)
    (hwf : importsWF 0 source.toList.length (I₁ ++ dimp :: I₂) = true)
    (hH : ∀ s i es, ext.rewriteFileWithHMR s i es = Except.ok es) :
    ∃ preOut postOut,
      (rewriteImports parse ext resolver st source importer ts).body.toList =
        preOut ++ seg source.toList dimp.s dimp.e ++ postOut := by
  obtain ⟨hlos, hstops, hse, hwf2⟩ :=
    editsOf_stop_le resolver source ts I₁ 0 source.toList.length dimp I₂ hwf
  obtain ⟨st', rep', hproc⟩ := processImports_hmrid_edits ext resolver source importer ts
    hH (I₁ ++ dimp :: I₂)
    ⟨{ st with importeeMap := mapSet st.importeeMap importer [] }, [], false⟩
  have hunf := rewriteImports_ok_unfold parse ext resolver st source importer ts
    (I₁ ++ dimp :: I₂) _ hp (by simp) hproc
  have hbodyval : (rewriteImports parse ext resolver st source importer ts).body =
      (if rep' = true then
        String.mk (magicToString source.toList
          (editsOf resolver source ts (I₁ ++ dimp :: I₂)))
      else source) := by
    rw [hunf]
    rfl
  rw [hbodyval]
  by_cases hrep : rep' = true
  · rw [if_pos hrep]
    have hdd : ¬ dimp.d = -1 := by omega
    have hedits : editsOf resolver source ts (I₁ ++ dimp :: I₂) =
        editsOf resolver source ts I₁ ++ editsOf resolver source ts I₂ := by
      rw [editsOf_append]
      congr 1
      simp only [editsOf, if_neg hdd, List.nil_append]
    have hstarts := editsOf_start_ge resolver source ts I₂ dimp.e source.toList.length hwf2
    obtain ⟨preOut, hsplit2⟩ := applyEditsAux_split source.toList dimp.s dimp.e
      (editsOf resolver source ts I₂) hstarts (editsOf resolver source ts I₁) 0 hstops
      (Nat.zero_le _) hse
    refine ⟨preOut, applyEditsAux source.toList dimp.e (editsOf resolver source ts I₂), ?_⟩
    show magicToString source.toList (editsOf resolver source ts (I₁ ++ dimp :: I₂)) = _
    rw [hedits, magicToString, hsplit2]
  · rw [if_neg hrep]
    refine ⟨source.toList.take dimp.s, source.toList.drop dimp.e, ?_⟩
    rw [List.append_assoc]
    conv_lhs => rw [← List.take_append_drop dimp.s source.toList]
    congr 1
    exact drop_eq_seg_append source.toList dimp.s dimp.e hse

/-- One inline script block matched by the regex of the HTML branch
(line 61): the open tag (from the angle bracket through the closing angle
bracket) and the script body. -/
structure ScriptBlock where
  openTag : String
  script : String

/-- The closing tag the replacement emits (line 68). -/
def scriptCloseTag : String := "</script>"

/-- The development-environment bootstrap snippet of lines 38-43. -/
def devInjectionCode : String :=
  "\n<script>" ++
  "window.__DEV__ = true\n" ++
  "window.process = \x7b env: \x7b NODE_ENV: \x27development\x27 \x7d\x7d\n" ++
  "</script>\n"

/-- The HTML branch of the middleware (lines 52-75), modelled at the level
of the regex match decomposition supplied by the platform regex engine:
the document is the interleaving of the non-script segments, the matched
blocks in document order, and a trailing segment.  The replace callback
threads the one-shot hasInjectedDevFlag boolean, prepends the dev snippet
when the flag is still unset, and reassembles each block as the snippet
(possibly empty), the open tag, the rewritten script and the closing
tag. -/
def htmlRewriteAux (parse : String → Except String (List ImportSpec))
    (ext : Externals) (resolver : InternalResolver) :
    RwState → Bool → List (String × ScriptBlock) → RwState × Bool × String
  | st, flag, [] => (st, flag, "")
  | st, flag, (preSeg, b) :: rest =>
    let devFlag := if flag then "" else devInjectionCode
    let r := rewriteImports parse ext resolver st b.script "/index.html" none
    let next := htmlRewriteAux parse ext resolver r.st true rest
    (next.1, next.2.1,
      preSeg ++ devFlag ++ b.openTag ++ r.body ++ scriptCloseTag ++ next.2.2)

/-- The whole html.replace call of lines 60-72 on the decomposed document,
starting with hasInjectedDevFlag unset, followed by the trailing segment
of the document. -/
def rewriteHtml (parse : String → Except String (List ImportSpec))
    (ext : Externals) (resolver : InternalResolver) (st : RwState)
    (parts : List (String × ScriptBlock)) (tailHtml : String) : RwState × String :=
  let r := htmlRewriteAux parse ext resolver st false parts
  (r.1, r.2.2 ++ tailHtml)

/-- Reassembly of the remaining blocks with no snippet inserted anywhere:
the shape the claim requires for every block after the first. -/
def htmlAssembleNoFlag (parse : String → Except String (List ImportSpec))
    (ext : Externals) (resolver : InternalResolver) :
    RwState → List (String × ScriptBlock) → RwState × String
  | st, [] => (st, "")
  | st, (preSeg, b) :: rest =>
    let r := rewriteImports parse ext resolver st b.script "/index.html" none
    let next := htmlAssembleNoFlag parse ext resolver r.st rest
    (next.1, preSeg ++ b.openTag ++ r.body ++ scriptCloseTag ++ next.2)

theorem str_append_empty (s : String) : s ++ "" = s := by
  apply str_ext
  rw [str_toList_append]
  simp

theorem htmlRewriteAux_flagTrue (parse : String → Except String (List ImportSpec))
    (ext : Externals) (resolver : InternalResolver) :
    ∀ (parts : List (String × ScriptBlock)) (st : RwState),
    htmlRewriteAux parse ext resolver st true parts =
      ((htmlAssembleNoFlag parse ext resolver st parts).1, true,
        (htmlAssembleNoFlag parse ext resolver st parts).2) := by
  intro parts
  induction parts with
  | nil =>
    intro st
    rfl
  | cons p rest ih =>
    intro st
    obtain ⟨preSeg, b⟩ := p
    simp only [htmlRewriteAux, htmlAssembleNoFlag, ih]
    rw [if_true, str_append_empty]

theorem htmlRewriteAux_cons_false (parse : String → Except String (List ImportSpec))
    (ext : Externals) (resolver : InternalResolver) (st : RwState)
    (preSeg : String) (b : ScriptBlock) (rest : List (String × ScriptBlock)) :
    htmlRewriteAux parse ext resolver st false ((preSeg, b) :: rest) =
      ((htmlAssembleNoFlag parse ext resolver
          (rewriteImports parse ext resolver st b.script "/index.html" none).st rest).1,
        true,
        preSeg ++ devInjectionCode ++ b.openTag ++
          (rewriteImports parse ext resolver st b.script "/index.html" none).body ++
          scriptCloseTag ++
          (htmlAssembleNoFlag parse ext resolver
            (rewriteImports parse ext resolver st b.script "/index.html" none).st rest).2) := by
  simp only [htmlRewriteAux, htmlRewriteAux_flagTrue]
  rw [if_neg Bool.false_ne_true]

/-- The graph-state evolution of the HTML branch: each block is rewritten
in document order under the fixed importer key of the HTML document. -/
def htmlGraphFold (parse : String → Except String (List ImportSpec))
    (ext : Externals) (resolver : InternalResolver) :
    RwState → List (String × ScriptBlock) → RwState
  | st, [] => st
  | st, (_, b) :: rest =>
    htmlGraphFold parse ext resolver
      (rewriteImports parse ext resolver st b.script "/index.html" none).st rest

theorem htmlRewriteAux_state (parse : String → Except String (List ImportSpec))
    (ext : Externals) (resolver : InternalResolver) :
    ∀ (parts : List (String × ScriptBlock)) (st : RwState) (flag : Bool),
    (htmlRewriteAux parse ext resolver st flag parts).1 =
      htmlGraphFold parse ext resolver st parts := by
  intro parts
  induction parts with
  | nil =>
    intro st flag
    rfl
  | cons p rest ih =>
    intro st flag
    obtain ⟨preSeg, b⟩ := p
    simp only [htmlRewriteAux, htmlGraphFold, ih]

theorem htmlGraphFold_append (parse : String → Except String (List ImportSpec))
    (ext : Externals) (resolver : InternalResolver) :
    ∀ (xs ys : List (String × ScriptBlock)) (st : RwState),
    htmlGraphFold parse ext resolver st (xs ++ ys) =
      htmlGraphFold parse ext resolver (htmlGraphFold parse ext resolver st xs) ys := by
  intro xs
  induction xs with
  | nil =>
    intro ys st
    rfl
  | cons p rest ih =>
    intro ys st
    obtain ⟨preSeg, b⟩ := p
    simp only [List.cons_append, htmlGraphFold]
    exact ih ys _

theorem htmlGraphFold_preserves_symmInv (parse : String → Except String (List ImportSpec))
    (ext : Externals) (resolver : InternalResolver)
    (hH : ∀ s i es, ∃ es', ext.rewriteFileWithHMR s i es = Except.ok es') :
    ∀ (parts : List (String × ScriptBlock)) (st : RwState), symmInv st →
    symmInv (htmlGraphFold parse ext resolver st parts) := by
  intro parts
  induction parts with
  | nil =>
    intro st h
    exact h
  | cons p rest ih =>
    intro st h
    obtain ⟨preSeg, b⟩ := p
    exact ih _ (rewriteImports_preserves_symmInv parse ext resolver st b.script
      "/index.html" none hH h)

/-- C6: for an HTML entry with two or more inline script blocks, the
rewritten document carries the bootstrap snippet exactly once, inserted
immediately before the first block's opening tag; every later block is
reassembled by htmlAssembleNoFlag, whose definition inserts no snippet
anywhere. -/
theorem C6_dev_flag_injected_once (parse : String → Except String (List ImportSpec))
    (ext : Externals) (resolver : InternalResolver) (st : RwState)
    (pre0 : String) (b0 : ScriptBlock) (pre1 : String) (b1 : ScriptBlock)
    (rest : List (String × ScriptBlock)) (tailHtml : String) :
    rewriteHtml parse ext resolver st ((pre0, b0) :: (pre1, b1) :: rest) tailHtml =
      ((htmlAssembleNoFlag parse ext resolver
          (rewriteImports parse ext resolver st b0.script "/index.html" none).st
          ((pre1, b1) :: rest)).1,
        pre0 ++ devInjectionCode ++ b0.openTag ++
          (rewriteImports parse ext resolver st b0.script "/index.html" none).body ++
          scriptCloseTag ++
          (htmlAssembleNoFlag parse ext resolver
            (rewriteImports parse ext resolver st b0.script "/index.html" none).st
            ((pre1, b1) :: rest)).2 ++ tailHtml) := by
  simp only [rewriteHtml, htmlRewriteAux_cons_false]

/-- C10 (implicit): every inline script block of an HTML response is
rewritten under the single importer key of the HTML document, so after the
response is processed the importee entry of that key holds exactly the importee
set of the last block alone, and the document is no longer listed
in the importer set of any importee outside that set — edges contributed
by earlier blocks have been removed by the stale-edge diff of the
subsequent rewrites. -/
theorem C10_html_last_block_wins (parse : String → Except String (List ImportSpec))
    (ext : Externals) (resolver : InternalResolver) (st : RwState)
    (ps : List (String × ScriptBlock)) (preN : String) (bN : ScriptBlock)
    (tailHtml : String) (impsN : List ImportSpec)
    (hH : ∀ s i es, ∃ es', ext.rewriteFileWithHMR s i es = Except.ok es')
    (hsym : symmInv st)
    (hpN : parse bN.script = Except.ok impsN)
    (hneN : impsN ≠ []) :
    (∀ E, E ∈ mapGetD (rewriteHtml parse ext resolver st (ps ++ [(preN, bN)])
        tailHtml).1.importeeMap "/index.html" ↔
      E ∈ collectImportees ext resolver bN.script "/index.html" none impsN) ∧
    (∀ E, ¬ E ∈ collectImportees ext resolver bN.script "/index.html" none impsN →
      ¬ "/index.html" ∈ mapGetD (rewriteHtml parse ext resolver st (ps ++ [(preN, bN)])
        tailHtml).1.importerMap E) := by
  have hstate : (rewriteHtml parse ext resolver st (ps ++ [(preN, bN)]) tailHtml).1 =
      (rewriteImports parse ext resolver (htmlGraphFold parse ext resolver st ps)
        bN.script "/index.html" none).st := by
    show (htmlRewriteAux parse ext resolver st false (ps ++ [(preN, bN)])).1 = _
    rw [htmlRewriteAux_state, htmlGraphFold_append]
    rfl
  have hsymMid : symmInv (htmlGraphFold parse ext resolver st ps) :=
    htmlGraphFold_preserves_symmInv parse ext resolver hH ps st hsym
  obtain ⟨h1, _, h3⟩ := rewriteImports_success_spec parse ext resolver
    (htmlGraphFold parse ext resolver st ps) bN.script "/index.html" none impsN hH
    hpN hneN
  have hsymF : symmInv (rewriteImports parse ext resolver
      (htmlGraphFold parse ext resolver st ps) bN.script "/index.html" none).st :=
    rewriteImports_preserves_symmInv parse ext resolver _ bN.script "/index.html"
      none hH hsymMid
  constructor
  · intro E
    rw [hstate]
    exact h1 E
  · intro E hnotS hmem
    rw [hstate] at hmem
    exact hnotS ((h1 E).mp (hsymF.2 "/index.html" E hmem))

/-- C1 counterexample: store the rewritten body under the raw body
"import x", then signal a change of the file foo.js whose resolved public
request path is /foo.js.  The claim requires the subsequent lookup of the
entry to be a miss, but the lookup still hits: entries are keyed by raw
body content while the change handler deletes the resolved public request
path. -/
theorem C1_counterexample :
    cacheGet
      (watcherOnChange ⟨fun _ => none, fun f => "/" ++ f⟩
        (cacheSet [] "import x" "REWRITTEN") "foo.js")
      "import x" = some "REWRITTEN" ∧
    ¬ cacheGet
      (watcherOnChange ⟨fun _ => none, fun f => "/" ++ f⟩
        (cacheSet [] "import x" "REWRITTEN") "foo.js")
      "import x" = none := by
  constructor
  · rfl
  · intro h
    simp [watcherOnChange, cacheSet, cacheDel, cacheGet, rewriteCacheMax] at h

/-- C1 (amended): the put/get round-trip holds exactly for every cache
state; a file-change notification deletes precisely the cache key equal to
the changed file's resolved public request path and leaves every other key
untouched — in particular an entry keyed by a raw body differing from that
path remains a hit. -/
theorem C1_cache_roundtrip_and_path_deletion (c : Cache) (body rw file k : String)
    (resolver : InternalResolver) :
    cacheGet (cacheSet c body rw) body = some rw ∧
    cacheGet (watcherOnChange resolver c file) k =
      (if k = resolver.fileToRequest file then none else cacheGet c k) := by
  exact ⟨cacheGet_cacheSet_self c body rw, cacheGet_cacheDel c k _⟩

/-- Witness for C2 at a concrete input: a one-import relative source
rewritten from the empty graph under an HMR transformer that returns its
buffer unchanged. -/
theorem C2_witness :
    (∀ s i es, ∃ es',
      (⟨"/@hmr", fun _ _ es => Except.ok es, fun i r => i ++ "|" ++ r⟩ :
        Externals).rewriteFileWithHMR s i es = Except.ok es') ∧
    symmInv ⟨[], []⟩ ∧
    (symmInv (rewriteImports (fun _ => Except.ok [⟨0, 3, -1⟩])
        ⟨"/@hmr", fun _ _ es => Except.ok es, fun i r => i ++ "|" ++ r⟩
        ⟨fun _ => none, fun f => f⟩ ⟨[], []⟩ "./a" "/main.js" none).st ∧
      (∀ E, E ∈ mapGetD (⟨[], []⟩ : RwState).importeeMap "/main.js" →
        ¬ E ∈ mapGetD (rewriteImports (fun _ => Except.ok [⟨0, 3, -1⟩])
            ⟨"/@hmr", fun _ _ es => Except.ok es, fun i r => i ++ "|" ++ r⟩
            ⟨fun _ => none, fun f => f⟩ ⟨[], []⟩ "./a" "/main.js" none).st.importeeMap
          "/main.js" →
        ¬ "/main.js" ∈ mapGetD (rewriteImports (fun _ => Except.ok [⟨0, 3, -1⟩])
            ⟨"/@hmr", fun _ _ es => Except.ok es, fun i r => i ++ "|" ++ r⟩
            ⟨fun _ => none, fun f => f⟩ ⟨[], []⟩ "./a" "/main.js" none).st.importerMap
          E)) :=
  ⟨fun _ _ es => ⟨es, rfl⟩, symmInv_empty,
    C2_graph_symmetry_invariant (fun _ => Except.ok [⟨0, 3, -1⟩])
      ⟨"/@hmr", fun _ _ es => Except.ok es, fun i r => i ++ "|" ++ r⟩
      ⟨fun _ => none, fun f => f⟩ ⟨[], []⟩ "./a" "/main.js" none
      (fun _ _ es => ⟨es, rfl⟩) symmInv_empty⟩

/-- Witness for C3 at a concrete input: the extension-less relative
specifier in the middle of a one-import source, with a refresh token. -/
theorem C3_witness :
    (fun s => if s = "A./depB" then Except.ok [(⟨1, 6, -1⟩ : ImportSpec)]
        else Except.error "x") ("A" ++ "./dep" ++ "B") =
      Except.ok [⟨"A".toList.length, "A".toList.length + "./dep".toList.length, -1⟩] ∧
    isBareSpecifier "./dep" = false ∧
    ((rewriteImports (fun s => if s = "A./depB" then Except.ok [(⟨1, 6, -1⟩ : ImportSpec)]
          else Except.error "x")
        ⟨"/@hmr", fun _ _ es => Except.ok es, fun i r => i ++ "|" ++ r⟩
        ⟨fun _ => none, fun f => f⟩ ⟨[], []⟩ ("A" ++ "./dep" ++ "B") "/main.js"
        (some "123")).body =
      "A" ++ rewriteRelative "./dep" (some "123") ++ "B" ∧
    rewriteRelative "./dep" (some "123") =
      (if hasDotWord (splitQuery "./dep").1 then (splitQuery "./dep").1
        else (splitQuery "./dep").1 ++ ".js") ++
      (splitQuery "./dep").2 ++
      (if tsTruthy (some "123") then
        (if (splitQuery "./dep").2 = "" then "?" else "&") ++ "t=" ++
          (some "123").getD ""
      else "")) :=
  ⟨by decide, by decide,
    C3_relative_rewrite (fun s => if s = "A./depB" then Except.ok [(⟨1, 6, -1⟩ : ImportSpec)]
        else Except.error "x")
      ⟨"/@hmr", fun _ _ es => Except.ok es, fun i r => i ++ "|" ++ r⟩
      ⟨fun _ => none, fun f => f⟩ ⟨[], []⟩ "A" "./dep" "B" "/main.js" (some "123")
      (by decide) (by decide)⟩

/-- Witness for C4 at a concrete input: a parse function that always
fails. -/
theorem C4_witness :
    (fun (_ : String) => (Except.error "boom" : Except String (List ImportSpec)))
        "let x =" = Except.error "boom" ∧
    (rewriteImports (fun _ => Except.error "boom")
        ⟨"/@hmr", fun _ _ es => Except.ok es, fun i r => i ++ "|" ++ r⟩
        ⟨fun _ => none, fun f => f⟩ ⟨[], []⟩ "let x =" "/m.js" none =
      ⟨⟨[], []⟩, "let x =", [rewriteFailMsg "/m.js", "boom", "let x ="]⟩ ∧
    rewriteFailMsg "/m.js" =
      "[vite] Error: module imports rewrite failed for " ++ "/m.js" ++ ".\n") :=
  ⟨rfl,
    C4_lex_failure_recovery (fun _ => Except.error "boom")
      ⟨"/@hmr", fun _ _ es => Except.ok es, fun i r => i ++ "|" ++ r⟩
      ⟨fun _ => none, fun f => f⟩ ⟨[], []⟩ "let x =" "/m.js" none "boom" rfl⟩

/-- Witness for C5 at a concrete input: a parse function reporting zero imports.
-/
theorem C5_witness :
    (fun (_ : String) => (Except.ok [] : Except String (List ImportSpec)))
        "const x = 1" = Except.ok [] ∧
    rewriteImports (fun _ => Except.ok [])
        ⟨"/@hmr", fun _ _ es => Except.ok es, fun i r => i ++ "|" ++ r⟩
        ⟨fun _ => none, fun f => f⟩ ⟨[], []⟩ "const x = 1" "/m.js" none =
      ⟨⟨[], []⟩, "const x = 1", []⟩ :=
  ⟨rfl,
    C5_no_imports_frame (fun _ => Except.ok [])
      ⟨"/@hmr", fun _ _ es => Except.ok es, fun i r => i ++ "|" ++ r⟩
      ⟨fun _ => none, fun f => f⟩ ⟨[], []⟩ "const x = 1" "/m.js" none rfl⟩

/-- Witness for C7 at a concrete input: the bare specifier vue in the
middle of a one-import source, resolved by the resolver. -/
theorem C7_witness :
    (fun s => if s = "AvueB" then Except.ok [(⟨1, 4, -1⟩ : ImportSpec)]
        else Except.error "x") ("A" ++ "vue" ++ "B") =
      Except.ok [⟨"A".toList.length, "A".toList.length + "vue".toList.length, -1⟩] ∧
    isBareSpecifier "vue" = true ∧
    ¬(resolveBare ⟨fun s => if s = "vue" then some "/@modules/vue" else none, fun f => f⟩
        "vue" =
      (⟨"/@hmr", fun _ _ es => Except.ok es, fun i r => i ++ "|" ++ r⟩ :
        Externals).hmrClientPublicPath ∧
      testVueRE "/main.js" = false) ∧
    ((rewriteImports (fun s => if s = "AvueB" then Except.ok [(⟨1, 4, -1⟩ : ImportSpec)]
          else Except.error "x")
        ⟨"/@hmr", fun _ _ es => Except.ok es, fun i r => i ++ "|" ++ r⟩
        ⟨fun s => if s = "vue" then some "/@modules/vue" else none, fun f => f⟩
        ⟨[], []⟩ ("A" ++ "vue" ++ "B") "/main.js" none).body =
      "A" ++ resolveBare
        ⟨fun s => if s = "vue" then some "/@modules/vue" else none, fun f => f⟩ "vue" ++
      "B" ∧
    (∀ r, (⟨fun s => if s = "vue" then some "/@modules/vue" else none, fun f => f⟩ :
        InternalResolver).idToRequest "vue" = some r → ¬ r = "" →
      resolveBare ⟨fun s => if s = "vue" then some "/@modules/vue" else none, fun f => f⟩
        "vue" = r) ∧
    ((⟨fun s => if s = "vue" then some "/@modules/vue" else none, fun f => f⟩ :
        InternalResolver).idToRequest "vue" = none →
      resolveBare ⟨fun s => if s = "vue" then some "/@modules/vue" else none, fun f => f⟩
        "vue" = "/@modules/" ++ "vue")) :=
  ⟨by decide, by decide, by decide,
    C7_bare_specifier (fun s => if s = "AvueB" then Except.ok [(⟨1, 4, -1⟩ : ImportSpec)]
        else Except.error "x")
      ⟨"/@hmr", fun _ _ es => Except.ok es, fun i r => i ++ "|" ++ r⟩
      ⟨fun s => if s = "vue" then some "/@modules/vue" else none, fun f => f⟩
      ⟨[], []⟩ "A" "vue" "B" "/main.js" none (by decide) (by decide) (by decide)⟩

/-- Witness for C8 at a concrete input: a source consisting of one dynamic import
expression range. -/
theorem C8_witness :
    (fun s => if s = "AB" then Except.ok [(⟨0, 1, 2⟩ : ImportSpec)]
        else Except.error "e") "AB" = Except.ok ([] ++ (⟨0, 1, 2⟩ : ImportSpec) :: []) ∧
    ((0 : Int) ≤ (⟨0, 1, 2⟩ : ImportSpec).d) ∧
    importsWF 0 "AB".toList.length ([] ++ (⟨0, 1, 2⟩ : ImportSpec) :: []) = true ∧
    (∃ preOut postOut,
      (rewriteImports (fun s => if s = "AB" then Except.ok [(⟨0, 1, 2⟩ : ImportSpec)]
          else Except.error "e")
        ⟨"/@hmr", fun _ _ es => Except.ok es, fun i r => i ++ "|" ++ r⟩
        ⟨fun _ => none, fun f => f⟩ ⟨[], []⟩ "AB" "/m.js" none).body.toList =
        preOut ++ seg "AB".toList (⟨0, 1, 2⟩ : ImportSpec).s
          (⟨0, 1, 2⟩ : ImportSpec).e ++ postOut) :=
  ⟨by decide, by decide, by decide,
    C8_dynamic_import_untouched (fun s => if s = "AB" then
        Except.ok [(⟨0, 1, 2⟩ : ImportSpec)] else Except.error "e")
      ⟨"/@hmr", fun _ _ es => Except.ok es, fun i r => i ++ "|" ++ r⟩
      ⟨fun _ => none, fun f => f⟩ ⟨[], []⟩ "AB" "/m.js" none [] [] ⟨0, 1, 2⟩
      (by decide) (by decide) (by decide) (fun _ _ _ => rfl)⟩

/-- Witness for C9 at a concrete input: a relative import followed by a
bare import of the HMR client, with a throwing HMR transformer and a
pre-existing stale edge. -/
theorem C9_witness :
    (fun s => if s = "./ahmr" then
        Except.ok [(⟨0, 3, -1⟩ : ImportSpec), (⟨3, 6, -1⟩ : ImportSpec)]
      else Except.error "x") "./ahmr" =
      Except.ok [(⟨0, 3, -1⟩ : ImportSpec), (⟨3, 6, -1⟩ : ImportSpec)] ∧
    isBareSpecifier (String.mk (seg "./ahmr".toList 0 3)) = false ∧
    isBareSpecifier (String.mk (seg "./ahmr".toList 3 6)) = true ∧
    "E0" ∈ (["E0"] : StrSet) ∧
    ((rewriteImports (fun s => if s = "./ahmr" then
          Except.ok [(⟨0, 3, -1⟩ : ImportSpec), (⟨3, 6, -1⟩ : ImportSpec)]
        else Except.error "x")
        ⟨"/@hmr", fun _ _ _ => Except.error "boom", fun i r => i ++ "|" ++ r⟩
        ⟨fun s => if s = "hmr" then some "/@hmr" else none, fun f => f⟩
        ⟨[("/m.js", ["E0"])], [("E0", ["/m.js"])]⟩ "./ahmr" "/m.js" none).body =
      "./ahmr" ∧
    mapGetD (rewriteImports (fun s => if s = "./ahmr" then
          Except.ok [(⟨0, 3, -1⟩ : ImportSpec), (⟨3, 6, -1⟩ : ImportSpec)]
        else Except.error "x")
        ⟨"/@hmr", fun _ _ _ => Except.error "boom", fun i r => i ++ "|" ++ r⟩
        ⟨fun s => if s = "hmr" then some "/@hmr" else none, fun f => f⟩
        ⟨[("/m.js", ["E0"])], [("E0", ["/m.js"])]⟩ "./ahmr" "/m.js" none).st.importeeMap
        "/m.js" =
      [(⟨"/@hmr", fun _ _ _ => Except.error "boom", fun i r => i ++ "|" ++ r⟩ :
        Externals).importeeOf "/m.js"
          (rewriteRelative (String.mk (seg "./ahmr".toList 0 3)) none)] ∧
    "/m.js" ∈ mapGetD (rewriteImports (fun s => if s = "./ahmr" then
          Except.ok [(⟨0, 3, -1⟩ : ImportSpec), (⟨3, 6, -1⟩ : ImportSpec)]
        else Except.error "x")
        ⟨"/@hmr", fun _ _ _ => Except.error "boom", fun i r => i ++ "|" ++ r⟩
        ⟨fun s => if s = "hmr" then some "/@hmr" else none, fun f => f⟩
        ⟨[("/m.js", ["E0"])], [("E0", ["/m.js"])]⟩ "./ahmr" "/m.js" none).st.importerMap
      "E0") :=
  ⟨by decide, by decide, by decide, by decide,
    C9_error_non_atomicity (fun s => if s = "./ahmr" then
        Except.ok [(⟨0, 3, -1⟩ : ImportSpec), (⟨3, 6, -1⟩ : ImportSpec)]
      else Except.error "x")
      ⟨"/@hmr", fun _ _ _ => Except.error "boom", fun i r => i ++ "|" ++ r⟩
      ⟨fun s => if s = "hmr" then some "/@hmr" else none, fun f => f⟩
      ⟨[("/m.js", ["E0"])], [("E0", ["/m.js"])]⟩ "./ahmr" "/m.js" none
      ⟨0, 3, -1⟩ ⟨3, 6, -1⟩ "boom" "E0" ["E0"]
      (by decide) rfl rfl (by decide) (by decide) (by decide) (fun _ => rfl)
      (by decide) (by decide) (by decide) (by decide)⟩

/-- Witness for C10 at a concrete input: two blocks, the first with no imports,
the last importing one relative dependency. -/
theorem C10_witness :
    (∀ s i es, ∃ es',
      (⟨"/@hmr", fun _ _ es => Except.ok es, fun i r => i ++ "|" ++ r⟩ :
        Externals).rewriteFileWithHMR s i es = Except.ok es') ∧
    symmInv ⟨[], []⟩ ∧
    (fun s => if s = "./b" then
        (Except.ok [(⟨0, 3, -1⟩ : ImportSpec)] : Except String (List ImportSpec))
      else Except.ok []) (ScriptBlock.mk "<script>" "./b").script =
      Except.ok [(⟨0, 3, -1⟩ : ImportSpec)] ∧
    ((∀ E, E ∈ mapGetD (rewriteHtml (fun s => if s = "./b" then
            Except.ok [(⟨0, 3, -1⟩ : ImportSpec)] else Except.ok [])
          ⟨"/@hmr", fun _ _ es => Except.ok es, fun i r => i ++ "|" ++ r⟩
          ⟨fun _ => none, fun f => f⟩ ⟨[], []⟩
          ([("<p>", ScriptBlock.mk "<script>" "s1")] ++
            [("", ScriptBlock.mk "<script>" "./b")]) "</body>").1.importeeMap
          "/index.html" ↔
        E ∈ collectImportees
          ⟨"/@hmr", fun _ _ es => Except.ok es, fun i r => i ++ "|" ++ r⟩
          ⟨fun _ => none, fun f => f⟩ (ScriptBlock.mk "<script>" "./b").script
          "/index.html" none [(⟨0, 3, -1⟩ : ImportSpec)]) ∧
      (∀ E, ¬ E ∈ collectImportees
          ⟨"/@hmr", fun _ _ es => Except.ok es, fun i r => i ++ "|" ++ r⟩
          ⟨fun _ => none, fun f => f⟩ (ScriptBlock.mk "<script>" "./b").script
          "/index.html" none [(⟨0, 3, -1⟩ : ImportSpec)] →
        ¬ "/index.html" ∈ mapGetD (rewriteHtml (fun s => if s = "./b" then
              Except.ok [(⟨0, 3, -1⟩ : ImportSpec)] else Except.ok [])
            ⟨"/@hmr", fun _ _ es => Except.ok es, fun i r => i ++ "|" ++ r⟩
            ⟨fun _ => none, fun f => f⟩ ⟨[], []⟩
            ([("<p>", ScriptBlock.mk "<script>" "s1")] ++
              [("", ScriptBlock.mk "<script>" "./b")]) "</body>").1.importerMap E)) :=
  ⟨fun _ _ es => ⟨es, rfl⟩, symmInv_empty, by decide,
    C10_html_last_block_wins (fun s => if s = "./b" then
        Except.ok [(⟨0, 3, -1⟩ : ImportSpec)] else Except.ok [])
      ⟨"/@hmr", fun _ _ es => Except.ok es, fun i r => i ++ "|" ++ r⟩
      ⟨fun _ => none, fun f => f⟩ ⟨[], []⟩
      [("<p>", ScriptBlock.mk "<script>" "s1")] "" (ScriptBlock.mk "<script>" "./b")
      "</body>" [(⟨0, 3, -1⟩ : ImportSpec)]
      (fun _ _ es => ⟨es, rfl⟩) symmInv_empty (by decide) (by decide)⟩

end ViteRewrite
